import Mathlib

/-!
Verification development for the WorkshopAI workflow-board client.

The definitions below are shallow embeddings of the JavaScript source:

* `waitForEventResolve` embeds `waitForEvent` in `socket.js`
  (a promise resolved by `socket.once(eventName, resolve)`);
* `getLink` / `addLinkAction` embed `getLink` in `shapes.js` and the
  link-adding branch of the `#board-create-link` click handler;
* `createLinkClick` / `clickFold` embed the pending-pair logic of the
  `#board-create-link` click handler in `preset.js`;
* `editVariableRequest` / `importVariablesRequest` embed the socket
  emissions of `editVariable` and `importVariables` in the agents module.
-/

namespace WorkshopAI

/-- Event on the socket channel: a name, a payload, and (for analysis of the
correlation scheme) the identifier of the request that triggered it.
`waitForEvent` in `socket.js` registers `socket.once(eventName, resolve)`,
so resolution only ever inspects the event name. -/
structure ChannelEvent where
  name : String
  payload : Nat
  triggeredBy : Nat
  deriving Repr, DecidableEq

/-- Embeds `waitForEvent(eventName)` from `socket.js`: the future resolves
with the payload of the first later event whose name equals `kind`
(`socket.once` fires at most once and is keyed on the event name alone);
a trace containing no such event leaves the future unresolved (`none`);
there is no rejection or timeout branch in the source. -/
def waitForEventResolve (kind : String) (events : List ChannelEvent) : Option Nat :=
  (events.find? (fun e => e.name == kind)).map (fun e => e.payload)

/-- Embeds `getLink(graph, source, target)` from `shapes.js`: scans the
existing links for one matching the pair in either orientation; if found
returns the `null` sentinel (`none`), otherwise a fresh source→target link. -/
structure BoardLink where
  source : Nat
  target : Nat
  deriving Repr, DecidableEq

def linkMatches (l : BoardLink) (s t : Nat) : Bool :=
  (l.source == s && l.target == t) || (l.source == t && l.target == s)

def getLink (links : List BoardLink) (s t : Nat) : Option BoardLink :=
  if links.any (fun l => linkMatches l s t) then none
  else some ⟨s, t⟩

/-- Embeds the model mutation performed after `getLink` in both
`fetchWorkflowData` and the `#board-create-link` success handler:
`if (newLink) newLink.addTo(graph)` — the link is added only when
`getLink` did not return the already-exists sentinel. -/
def addLinkAction (links : List BoardLink) (s t : Nat) : List BoardLink :=
  match getLink links s t with
  | none => links
  | some l => links ++ [l]

/-- Emitted link-create request: workflow id, source node, target node. -/
structure LinkCreatePayload where
  workflowId : Nat
  source : Nat
  target : Nat
  deriving Repr, DecidableEq

/-- Embeds one click of the `#board-create-link` handler in `preset.js`,
restricted to clicks whose `selectedElement` is a node (the only branch that
touches the pending set). `pending` is `selectedElements`; a click on a node
already pending is ignored; when the pending set reaches two the handler
emits `LINK_CREATE_REQUEST` (when a workflow is selected) and clears the
pending set synchronously, before any response arrives. -/
def createLinkClick (pending : List Nat) (n : Nat) (workflow : Option Nat) :
    List Nat × Option LinkCreatePayload :=
  if n ∈ pending then (pending, none)
  else
    let pending' := pending ++ [n]
    if pending'.length == 2 then
      match pending' with
      | [s, t] =>
        match workflow with
        | some w => ([], some ⟨w, s, t⟩)
        | none => ([], none)
      | _ => ([], none)
    else (pending', none)

/-- One step of a click sequence: run `createLinkClick` on the pending set
and append any emitted request to the log. -/
def clickStep (st : List Nat × List LinkCreatePayload) (c : Nat × Option Nat) :
    List Nat × List LinkCreatePayload :=
  let r := createLinkClick st.1 c.1 c.2
  (r.1, st.2 ++ r.2.toList)

/-- Folds a sequence of node clicks (each paired with the workflow selected
at that moment) through `createLinkClick`, starting from an empty pending
set, accumulating every emitted request. -/
def clickFold (clicks : List (Nat × Option Nat)) : List Nat × List LinkCreatePayload :=
  clicks.foldl clickStep ([], [])

/-- Wire name of the variables-import request, `AgentEvent.AGENT_IMPORT_VARS_REQUEST`
in `socket.js`. -/
def AGENT_IMPORT_VARS_REQUEST : String := "agent_import_vars_request"

/-- Payload shape of a variables-import emission: event name, agent id, and
the variables map (as an association list). -/
structure AgentVarsRequest where
  event : String
  agentId : Nat
  vars : List (String × String)
  deriving Repr, DecidableEq

/-- Embeds the socket emission of `importVariables` in the agents module:
`socket.emit(AgentEvent.AGENT_IMPORT_VARS_REQUEST, ...)` with the agent id
and the parsed variables map. -/
def importVariablesRequest (id : Nat) (vars : List (String × String)) : AgentVarsRequest :=
  ⟨AGENT_IMPORT_VARS_REQUEST, id, vars⟩

/-- Embeds the socket emission of `editVariable` in the agents module:
it builds the one-entry map `updatedVars` binding `variableName` to `newValue`
and emits `AGENT_IMPORT_VARS_REQUEST` with the agent id and that map. -/
def editVariableRequest (id : Nat) (name value : String) : AgentVarsRequest :=
  ⟨AGENT_IMPORT_VARS_REQUEST, id, [(name, value)]⟩

/-- JSON-like value stored in a node's `staticInput` map. -/
inductive JValue where
  | vStr (s : String)
  | vBool (b : Bool)
  | vNum (n : Int)
  | vNull
  deriving Repr, DecidableEq

/-- Field kinds recognised by `generateFormField` in `preset.js`. -/
inductive FieldType where
  | text
  | textarea
  | number
  | checkbox
  | select
  | other
  deriving Repr, DecidableEq

/-- The part of a schema `FieldDef` that `saveNodeInterface_Embedded` reads:
the field type and the schema default (absent models `undefined`). -/
structure FieldDef where
  fieldType : FieldType
  default : Option JValue
  deriving Repr, DecidableEq

/-- Embeds the per-key derivation in `saveNodeInterface_Embedded`
(`preset.js`): checkbox fields store `formData.has(key)` as a boolean;
otherwise a submitted form value is taken as a string; otherwise the
previous `static_input[key]` when present, else the schema default when
defined, else null. -/
def saveNodeInterfaceValue (d : FieldDef) (originalStaticInput : String → Option JValue)
    (formHas : String → Bool) (formGet : String → String) (key : String) : JValue :=
  if d.fieldType = FieldType.checkbox then JValue.vBool (formHas key)
  else if formHas key then JValue.vStr (formGet key)
  else
    match originalStaticInput key with
    | some v => v
    | none =>
      match d.default with
      | some dv => dv
      | none => JValue.vNull

/-- Embeds the `for (const key in interfaceData)` loop of
`saveNodeInterface_Embedded`: the new `staticInput` map has one entry per
schema key, derived by `saveNodeInterfaceValue`. -/
def saveNodeInterface (schema : List (String × FieldDef))
    (originalStaticInput : String → Option JValue)
    (formHas : String → Bool) (formGet : String → String) : List (String × JValue) :=
  schema.map (fun kd => (kd.1, saveNodeInterfaceValue kd.2 originalStaticInput formHas formGet kd.1))

/-- One entry of a select control's option list. -/
structure SelectOptionEntry where
  value : String
  text : String
  deriving Repr, DecidableEq

/-- The inert placeholder installed by every failure branch of the
dynamic-options handler:
`$select.empty().append(String.singleton optionTag)` with value `""` and
text `Error loading`. -/
def errorLoadingOption : SelectOptionEntry := ⟨"", "Error loading"⟩

/-- Response payload of `NODE_GET_DYNAMIC_OPTIONS`. -/
structure DynOptionsResponse where
  message : String
  optionsSource : String
  options : List SelectOptionEntry
  deriving Repr, DecidableEq

/-- Embeds the dynamic-options continuation in
`initializeNodeInterfaceSelects_Embedded` (`preset.js`): on a successful
response whose `options_source` matches the control, the option list is
rebuilt from the response; on any failure (`message` not success, source
mismatch, or a rejected fetch, modelled by `Except.error`), the list is
emptied and replaced by the single `errorLoadingOption`; the prior option
list `current` is discarded in every branch (`$select.empty()`). -/
def handleDynamicOptions (expectedSource : String) (current : List SelectOptionEntry)
    (result : Except Unit DynOptionsResponse) : List SelectOptionEntry :=
  match result with
  | Except.ok response =>
    if response.message == "success" && response.optionsSource == expectedSource then
      response.options
    else [errorLoadingOption]
  | Except.error _ => [errorLoadingOption]

/-- Outcome of the `#board-delete-node` click action: whether the element was
removed from the graph model, and the emitted `NODE_DELETE_REQUEST` payload
(`workflow_id`, `id`), if any. The node id is optional because `customId`
is `undefined` for a never-persisted node. -/
structure NodeDeleteOutcome where
  removedFromGraph : Bool
  request : Option (Nat × Option Nat)
  deriving Repr, DecidableEq

/-- Embeds the `#board-delete-node` click handler composed with `deleteNode`
(`preset.js`): the selected node is removed unconditionally
(`selectedElement.remove()`), then `deleteNode(nodeId)` emits
`NODE_DELETE_REQUEST` carrying the workflow id and `nodeId` whenever a
workflow is selected — the handler never checks whether `customId` is nil. -/
def boardDeleteNode (workflow : Option Nat) (customId : Option Nat) : NodeDeleteOutcome :=
  { removedFromGraph := true
    request :=
      match workflow with
      | some w => some (w, customId)
      | none => none }

/-- Pan/zoom state of the paper: uniform scale and translate. -/
structure ViewState where
  scale : ℚ
  tx : ℚ
  ty : ℚ
  deriving Repr, DecidableEq

/-- Embeds the wheel handler in `addPresetHandlers` (`preset.js`):
`newScale = deltaY > 0 ? oldScale * 0.9 : oldScale * 1.1`;
`fx = (offsetX - tx) / oldScale`, `newTx = offsetX - fx * newScale`,
and likewise for the y axis. -/
def wheelZoom (st : ViewState) (deltaY offsetX offsetY : ℚ) : ViewState :=
  let newScale := if deltaY > 0 then st.scale * (9 / 10) else st.scale * (11 / 10)
  let fx := (offsetX - st.tx) / st.scale
  let fy := (offsetY - st.ty) / st.scale
  { scale := newScale, tx := offsetX - fx * newScale, ty := offsetY - fy * newScale }

/-- Sizing state of a `NodeWithButton`: current size, the stored
`originalSize` and `expandedSize` attributes, and the `interfaceVisible`
flag. -/
structure NodeUI where
  size : ℚ × ℚ
  originalSize : ℚ × ℚ
  expandedSize : ℚ × ℚ
  interfaceVisible : Bool
  deriving Repr, DecidableEq

/-- Embeds `toggleNodeInterface` from `shapes.js`: when the interface is
visible the node is resized to the stored `originalSize` attribute and
hidden; otherwise it is resized to the stored `expandedSize` and shown. -/
def toggleNodeInterface (n : NodeUI) : NodeUI :=
  if n.interfaceVisible then
    { n with size := n.originalSize, interfaceVisible := false }
  else
    { n with size := n.expandedSize, interfaceVisible := true }

/-- Embeds the resize performed by `renderNodeInterface` in `preset.js` once
the interface content is rendered: the new expanded height is the measured
`scrollHeight` of the content plus `headerHeight = 20` plus `padding = 20`;
the width is the current expanded width; both `expandedSize` and the node's
size are set to that rectangle. -/
def renderNodeInterfaceResize (n : NodeUI) (contentScrollHeight : ℚ) : NodeUI :=
  let headerHeight : ℚ := 20
  let padding : ℚ := 20
  let newExpandedHeight := contentScrollHeight + headerHeight + padding
  let w := n.expandedSize.1
  { n with expandedSize := (w, newExpandedHeight), size := (w, newExpandedHeight) }

/-- Kinds of cells on the board canvas. -/
inductive CellKind where
  | node
  | window
  | note
  deriving Repr, DecidableEq

/-- A canvas element: identity, kind, position and size. -/
structure BoardElem where
  id : Nat
  kind : CellKind
  pos : ℚ × ℚ
  size : ℚ × ℚ
  deriving Repr, DecidableEq

/-- Embeds `isNodeInsideWindow` from `shapes.js`: axis-aligned
bounding-box-within-bounding-box containment. -/
def isNodeInsideWindow (node w : BoardElem) : Bool :=
  decide (w.pos.1 ≤ node.pos.1) && decide (w.pos.2 ≤ node.pos.2) &&
  decide (node.pos.1 + node.size.1 ≤ w.pos.1 + w.size.1) &&
  decide (node.pos.2 + node.size.2 ≤ w.pos.2 + w.size.2)

/-- Drag state captured by the Window branch of the `element:pointerdown`
handler: the dragged window, `dragStartPosition` (pointer offset within the
window), and `initialNodePositions` (each contained element's id with its
offset from the window origin). -/
structure WindowDragState where
  windowId : Nat
  dragStart : ℚ × ℚ
  captured : List (Nat × ℚ × ℚ)
  deriving Repr, DecidableEq

/-- Embeds the Window branch of `element:pointerdown` in `preset.js`: at
drag-start the members are the elements other than the window itself that
`isNodeInsideWindow` places inside it at that instant, each cached with its
offset from the window origin. -/
def beginWindowDrag (elems : List BoardElem) (w : BoardElem) (x y : ℚ) : WindowDragState :=
  { windowId := w.id
    dragStart := (x - w.pos.1, y - w.pos.2)
    captured := (elems.filter (fun e => e.id != w.id && isNodeInsideWindow e w)).map
      (fun e => (e.id, e.pos.1 - w.pos.1, e.pos.2 - w.pos.2)) }

/-- Repositioning of one element during a window pointer-move: the window
goes to `(newX, newY)`; a captured member goes to the window position plus
its cached offset; every other element is untouched. -/
def applyWindowMove (ds : WindowDragState) (newX newY : ℚ) (e : BoardElem) : BoardElem :=
  if e.id == ds.windowId then { e with pos := (newX, newY) }
  else
    match ds.captured.lookup e.id with
    | some off => { e with pos := (newX + off.1, newY + off.2) }
    | none => e

/-- Embeds the Window branch of `element:pointermove` in `preset.js`:
`newX = x - dragStartPosition.x`, `newY = y - dragStartPosition.y`; the
window is moved there and each entry of `initialNodePositions` is
repositioned to `(newX + offsetX, newY + offsetY)`. -/
def moveWindowDrag (ds : WindowDragState) (elems : List BoardElem) (x y : ℚ) : List BoardElem :=
  elems.map (applyWindowMove ds (x - ds.dragStart.1) (y - ds.dragStart.2))

/-- A complete window drag gesture: membership is computed once at
pointer-down, then each pointer-move sample is applied in turn with that
fixed drag state. -/
def windowDragRun (elems : List BoardElem) (w : BoardElem) (startX startY : ℚ)
    (moves : List (ℚ × ℚ)) : List BoardElem :=
  let ds := beginWindowDrag elems w startX startY
  moves.foldl (fun es m => moveWindowDrag ds es m.1 m.2) elems

/-- Position of the element with a given id, if present. -/
def posOf (elems : List BoardElem) (i : Nat) : Option (ℚ × ℚ) :=
  (elems.find? (fun e => e.id == i)).map (fun e => e.pos)

/-- Helper: `find?` keyed on the event name skips a prefix with no matching
name and stops at the first event named `kind`. -/
lemma find_name_append_cons (kind : String) (pre : List ChannelEvent)
    (hpre : ∀ e' ∈ pre, e'.name ≠ kind) (e : ChannelEvent) (he : e.name = kind)
    (post : List ChannelEvent) :
    (pre ++ e :: post).find? (fun x => x.name == kind) = some e := by
  induction pre with
  | nil =>
    simp only [List.nil_append]
    rw [List.find?_cons_of_pos]
    simp [he]
  | cons a pre ih =>
    have ha : a.name ≠ kind := hpre a (by simp)
    rw [List.cons_append, List.find?_cons_of_neg]
    · exact ih (fun e' h => hpre e' (by simp [h]))
    · simp [ha]

/-- C1: the future returned by `awaitResponse(kind)` (`waitForEvent`)
resolves with the payload of the first event named `kind` arriving after
registration, whatever request triggered it (the `triggeredBy` field is
never inspected); it resolves at most once (the result type is a single
`Option`, matching `socket.once`); and on a trace with no event named
`kind` it stays unresolved forever — there is no rejection, timeout or
cleanup branch in the source. -/
theorem waitForEvent_first_arrival_single_shot (kind : String)
    (pre post : List ChannelEvent) (e : ChannelEvent)
    (hpre : ∀ e' ∈ pre, e'.name ≠ kind) (he : e.name = kind) :
    waitForEventResolve kind (pre ++ e :: post) = some e.payload ∧
    (∀ tb : Nat,
      waitForEventResolve kind (pre ++ { e with triggeredBy := tb } :: post)
        = some e.payload) ∧
    (∀ events : List ChannelEvent, (∀ e' ∈ events, e'.name ≠ kind) →
      waitForEventResolve kind events = none) := by
  refine ⟨?_, ?_, ?_⟩
  · simp [waitForEventResolve, find_name_append_cons kind pre hpre e he post]
  · intro tb
    simp [waitForEventResolve,
      find_name_append_cons kind pre hpre { e with triggeredBy := tb } he post]
  · intro events hev
    have : events.find? (fun x => x.name == kind) = none := by
      rw [List.find?_eq_none]
      intro x hx
      simpa using hev x hx
    simp [waitForEventResolve, this]

/-- Witness for C1 at a concrete trace: a listener for `node_save` skips the
unrelated `workflow_save` event, resolves with the first `node_save` payload
and ignores the later one. -/
theorem waitForEvent_first_arrival_single_shot_witness :
    waitForEventResolve "node_save"
      ([⟨"workflow_save", 1, 0⟩] ++ ⟨"node_save", 42, 7⟩ :: [⟨"node_save", 99, 8⟩])
      = some 42 :=
  (waitForEvent_first_arrival_single_shot "node_save"
    [⟨"workflow_save", 1, 0⟩] [⟨"node_save", 99, 8⟩] ⟨"node_save", 42, 7⟩
    (by decide) rfl).1

/-- C9: editing a single agent variable issues exactly the request that
importing the one-entry map would issue: same event name
(`AGENT_IMPORT_VARS_REQUEST`), same agent id, same singleton variables map —
there is no separate single-update request kind. -/
theorem editVariable_is_singleton_import (id : Nat) (name value : String) :
    editVariableRequest id name value = importVariablesRequest id [(name, value)] ∧
    (editVariableRequest id name value).event = AGENT_IMPORT_VARS_REQUEST :=
  ⟨rfl, rfl⟩

/-- C7 counterexample: the delete action of a never-persisted node
(`customId` nil) still emits a `NODE_DELETE_REQUEST` whenever a workflow is
selected — the handler calls `deleteNode(nodeId)` unconditionally, so the
claim that no delete request is sent for such a node is false. -/
theorem boardDeleteNode_unsaved_counterexample :
    (boardDeleteNode (some 0) none).request = some (0, none) ∧
    ¬ (∀ w : Option Nat, (boardDeleteNode w none).request = none) := by
  refine ⟨rfl, fun h => ?_⟩
  exact absurd (h (some 0)) (by decide)

/-- C7 (amended): the delete action always removes the node from the graph
model, and emits a `NODE_DELETE_REQUEST` keyed by the node's `customId`
exactly when a workflow is selected — including for never-persisted nodes,
whose request then carries a nil id. -/
theorem boardDeleteNode_outcome (workflow customId : Option Nat) :
    (boardDeleteNode workflow customId).removedFromGraph = true ∧
    (boardDeleteNode workflow customId).request
      = workflow.map (fun w => (w, customId)) := by
  cases workflow <;> exact ⟨rfl, rfl⟩

/-- C8: whenever the dynamic-options outcome is a failure — the fetch
rejected, or the response message is not `success`, or the response's
`options_source` does not match the control — the option list becomes
exactly the single inert error placeholder, regardless of the prior
option set. -/
theorem handleDynamicOptions_failure (expectedSource : String)
    (current : List SelectOptionEntry) (result : Except Unit DynOptionsResponse)
    (h : ∀ r, result = Except.ok r →
      r.message ≠ "success" ∨ r.optionsSource ≠ expectedSource) :
    handleDynamicOptions expectedSource current result = [errorLoadingOption] := by
  cases result with
  | error e => rfl
  | ok r =>
    have hcond : (r.message == "success" && r.optionsSource == expectedSource) = false := by
      rcases h r rfl with hm | hs
      · simp [hm]
      · simp [hs]
    simp [handleDynamicOptions, hcond]

/-- Witness for C8 at a concrete failed response: an error message for the
matching source wipes a previously populated option list down to the single
placeholder. -/
theorem handleDynamicOptions_failure_witness :
    handleDynamicOptions "models" [⟨"a", "A"⟩]
      (Except.ok ⟨"error", "models", []⟩) = [errorLoadingOption] :=
  handleDynamicOptions_failure "models" [⟨"a", "A"⟩]
    (Except.ok ⟨"error", "models", []⟩)
    (by intro r hr; cases hr; left; decide)

/-- C4: one wheel step multiplies the scale by 0.9 (scroll down, zoom out)
or 1.1 (scroll up, zoom in), sets the translate per axis to
`o - ((o - t) / s0) * s1`, and keeps the world point under the cursor
fixed; in particular from scale 1, translate (0,0), cursor (100,100),
zooming in yields translate (-10,-10). -/
theorem wheelZoom_spec (st : ViewState) (d ox oy : ℚ) (h : st.scale ≠ 0) :
    (wheelZoom st d ox oy).scale
      = (if d > 0 then st.scale * (9 / 10) else st.scale * (11 / 10)) ∧
    (wheelZoom st d ox oy).tx
      = ox - ((ox - st.tx) / st.scale) * (wheelZoom st d ox oy).scale ∧
    (wheelZoom st d ox oy).ty
      = oy - ((oy - st.ty) / st.scale) * (wheelZoom st d ox oy).scale ∧
    (ox - (wheelZoom st d ox oy).tx) / (wheelZoom st d ox oy).scale
      = (ox - st.tx) / st.scale ∧
    (oy - (wheelZoom st d ox oy).ty) / (wheelZoom st d ox oy).scale
      = (oy - st.ty) / st.scale ∧
    (wheelZoom ⟨1, 0, 0⟩ (-1) 100 100).tx = -10 ∧
    (wheelZoom ⟨1, 0, 0⟩ (-1) 100 100).ty = -10 := by
  have hs : (wheelZoom st d ox oy).scale ≠ 0 := by
    show (if d > 0 then st.scale * (9 / 10) else st.scale * (11 / 10)) ≠ 0
    split <;> exact mul_ne_zero h (by norm_num)
  refine ⟨rfl, rfl, rfl, ?_, ?_, by norm_num [wheelZoom], by norm_num [wheelZoom]⟩
  · show (ox - (ox - (ox - st.tx) / st.scale * (wheelZoom st d ox oy).scale))
        / (wheelZoom st d ox oy).scale = (ox - st.tx) / st.scale
    have : ox - (ox - (ox - st.tx) / st.scale * (wheelZoom st d ox oy).scale)
        = (ox - st.tx) / st.scale * (wheelZoom st d ox oy).scale := by ring
    rw [this, mul_div_cancel_right₀ _ hs]
  · show (oy - (oy - (oy - st.ty) / st.scale * (wheelZoom st d ox oy).scale))
        / (wheelZoom st d ox oy).scale = (oy - st.ty) / st.scale
    have : oy - (oy - (oy - st.ty) / st.scale * (wheelZoom st d ox oy).scale)
        = (oy - st.ty) / st.scale * (wheelZoom st d ox oy).scale := by ring
    rw [this, mul_div_cancel_right₀ _ hs]

/-- Witness for C4 at scale 1, translate (0,0), cursor (100,100), one
zoom-in tick. -/
theorem wheelZoom_spec_witness :
    ((1 : ℚ) ≠ 0) ∧
    (wheelZoom ⟨1, 0, 0⟩ (-1) 100 100).scale
      = (if (-1 : ℚ) > 0 then (1 : ℚ) * (9 / 10) else (1 : ℚ) * (11 / 10)) :=
  ⟨by norm_num, (wheelZoom_spec ⟨1, 0, 0⟩ (-1) 100 100 (by norm_num)).1⟩

/-- C6 counterexample: closing restores the stored `originalSize`
attribute, not the size the node had before the toggle, so open-then-close
is not the identity on size for a closed node whose size differs from its
`originalSize` — here a node of size (200,100) with originalSize (150,70)
ends at (150,70). -/
theorem toggleNodeInterface_counterexample :
    (NodeUI.mk (200, 100) (150, 70) (300, 250) false).interfaceVisible = false ∧
    (toggleNodeInterface (renderNodeInterfaceResize
        (toggleNodeInterface (NodeUI.mk (200, 100) (150, 70) (300, 250) false)) 100)).size
      = (150, 70) ∧
    (150, 70) ≠ (NodeUI.mk (200, 100) (150, 70) (300, 250) false).size := by
  refine ⟨rfl, rfl, ?_⟩
  intro hc
  have := congrArg Prod.fst hc
  norm_num at this

/-- C6 (amended): opening the interface resizes the node to the current
expanded width by measured content height plus header (20) plus padding
(20); closing then resizes it to the stored `originalSize` attribute and
hides the interface; the round trip restores the pre-toggle size exactly
when that size equals the stored `originalSize` (true of every node as
created, since `originalSize` is never reassigned). -/
theorem toggleNodeInterface_amended (n : NodeUI) (ch : ℚ)
    (h : n.interfaceVisible = false) :
    (renderNodeInterfaceResize (toggleNodeInterface n) ch).size
      = (n.expandedSize.1, ch + 20 + 20) ∧
    (toggleNodeInterface (renderNodeInterfaceResize (toggleNodeInterface n) ch)).size
      = n.originalSize ∧
    (toggleNodeInterface (renderNodeInterfaceResize (toggleNodeInterface n) ch)).interfaceVisible
      = false ∧
    (n.size = n.originalSize →
      (toggleNodeInterface (renderNodeInterfaceResize (toggleNodeInterface n) ch)).size
        = n.size) := by
  refine ⟨?_, ?_, ?_, ?_⟩ <;>
    simp [toggleNodeInterface, renderNodeInterfaceResize, h]
  intro heq
  exact heq.symm

/-- Witness for C6 (amended) at a freshly created node (size equal to
originalSize) with measured content height 100. -/
theorem toggleNodeInterface_amended_witness :
    (NodeUI.mk (150, 70) (150, 70) (300, 250) false).interfaceVisible = false ∧
    (toggleNodeInterface (renderNodeInterfaceResize
        (toggleNodeInterface (NodeUI.mk (150, 70) (150, 70) (300, 250) false)) 100)).size
      = (NodeUI.mk (150, 70) (150, 70) (300, 250) false).originalSize :=
  ⟨rfl, (toggleNodeInterface_amended (NodeUI.mk (150, 70) (150, 70) (300, 250) false)
    100 rfl).2.1⟩

/-- Helper: matching a link against an unordered pair is symmetric in the
pair. -/
lemma linkMatches_symm (l : BoardLink) (a b : Nat) :
    linkMatches l b a = linkMatches l a b := by
  simp [linkMatches, Bool.or_comm]

/-- C3: when some link already joins `a` and `b` (in either orientation),
`getLink` returns the already-exists sentinel for both argument orders and
the adding action leaves the link set unchanged; moreover adding preserves
the invariant that no two links join the same unordered pair. -/
theorem link_pair_unique (links : List BoardLink) (a b : Nat)
    (h : ∃ l ∈ links, linkMatches l a b = true) :
    getLink links a b = none ∧ getLink links b a = none ∧
    addLinkAction links a b = links ∧ addLinkAction links b a = links ∧
    (∀ (links' : List BoardLink) (s t : Nat),
      links'.Pairwise (fun l1 l2 => linkMatches l1 l2.source l2.target = false) →
      (addLinkAction links' s t).Pairwise
        (fun l1 l2 => linkMatches l1 l2.source l2.target = false)) := by
  obtain ⟨l, hl, hm⟩ := h
  have hany : links.any (fun l => linkMatches l a b) = true :=
    List.any_eq_true.mpr ⟨l, hl, hm⟩
  have hany' : links.any (fun l => linkMatches l b a) = true := by
    simpa [linkMatches_symm] using hany
  refine ⟨by simp [getLink, hany], by simp [getLink, hany'],
    by simp [addLinkAction, getLink, hany], by simp [addLinkAction, getLink, hany'], ?_⟩
  intro links' s t hp
  by_cases hc : links'.any (fun l => linkMatches l s t) = true
  · simpa [addLinkAction, getLink, hc] using hp
  · have hall : ∀ l' ∈ links', linkMatches l' s t = false := by
      intro l' hl'
      by_contra hne
      exact hc (List.any_eq_true.mpr ⟨l', hl', by simpa using hne⟩)
    have hcf : (links'.any fun l => linkMatches l s t) = false :=
      Bool.eq_false_iff.mpr hc
    have hadd : addLinkAction links' s t = links' ++ [⟨s, t⟩] := by
      simp [addLinkAction, getLink, hcf]
    rw [hadd, List.pairwise_append]
    refine ⟨hp, List.pairwise_singleton _ _, ?_⟩
    intro l1 h1 l2 h2
    rcases List.mem_singleton.mp h2 with rfl
    exact hall l1 h1

/-- Witness for C3: with an existing link 1→2, asking to link 2 and 1 hits
the sentinel and leaves the link set unchanged. -/
theorem link_pair_unique_witness :
    getLink [⟨1, 2⟩] 2 1 = none ∧ addLinkAction [⟨1, 2⟩] 2 1 = [⟨1, 2⟩] :=
  ⟨(link_pair_unique [⟨1, 2⟩] 2 1 (by decide)).1,
   (link_pair_unique [⟨1, 2⟩] 2 1 (by decide)).2.2.1⟩

/-- Helper: looking up a key in an association list built by mapping a
keyed function over a schema with distinct keys. -/
lemma lookup_map_keyed {β : Type} (schema : List (String × FieldDef))
    (f : String × FieldDef → β) (hnd : (schema.map Prod.fst).Nodup)
    (k : String) (d : FieldDef) (hk : (k, d) ∈ schema) :
    (schema.map (fun kd => (kd.1, f kd))).lookup k = some (f (k, d)) := by
  induction schema with
  | nil => simp at hk
  | cons hd tl ih =>
    obtain ⟨k', d'⟩ := hd
    rw [List.map_cons] at hnd
    have hnotin : k' ∉ tl.map Prod.fst := (List.nodup_cons.mp hnd).1
    by_cases hkk : k = k'
    · subst hkk
      have hdd : d = d' := by
        rcases List.mem_cons.mp hk with hk | hk
        · exact (Prod.mk.injEq _ _ _ _ ▸ congrArg id hk).2
        · exact absurd (List.mem_map.mpr ⟨(k, d), hk, rfl⟩) hnotin
      subst hdd
      simp [List.lookup]
    · have hk' : (k, d) ∈ tl := by
        rcases List.mem_cons.mp hk with hk | hk
        · exact absurd (congrArg Prod.fst hk) hkk
        · exact hk
      have hbeq : (k == k') = false := by simpa using hkk
      simp only [List.map_cons, List.lookup, hbeq]
      exact ih (List.nodup_cons.mp hnd).2 hk'

/-- C2: the saved `staticInput` map has exactly the schema's key set
(partial submissions never shrink it), and each key is derived as: the
boolean presence in the form for checkbox fields; the submitted string when
the form contains the key; otherwise the previously persisted value, else
the schema default, else null. -/
theorem saveNodeInterface_complete (schema : List (String × FieldDef))
    (originalStaticInput : String → Option JValue)
    (formHas : String → Bool) (formGet : String → String)
    (hnd : (schema.map Prod.fst).Nodup) (k : String) (d : FieldDef)
    (hk : (k, d) ∈ schema) :
    (saveNodeInterface schema originalStaticInput formHas formGet).map Prod.fst
      = schema.map Prod.fst ∧
    (saveNodeInterface schema originalStaticInput formHas formGet).lookup k
      = some (if d.fieldType = FieldType.checkbox then JValue.vBool (formHas k)
          else if formHas k then JValue.vStr (formGet k)
          else (originalStaticInput k).getD (d.default.getD JValue.vNull)) := by
  constructor
  · simp [saveNodeInterface, List.map_map]
  · refine (lookup_map_keyed schema
      (fun kd => saveNodeInterfaceValue kd.2 originalStaticInput formHas formGet kd.1)
      hnd k d hk).trans ?_
    congr 1
    by_cases hcb : d.fieldType = FieldType.checkbox
    · simp [saveNodeInterfaceValue, hcb]
    · by_cases hf : formHas k = true
      · simp [saveNodeInterfaceValue, hcb, hf]
      · simp only [saveNodeInterfaceValue, hcb, hf, if_false]
        cases originalStaticInput k with
        | some v => simp
        | none => cases d.default with
          | some dv => simp
          | none => simp

/-- Witness for C2: schema keys a, b, c; the form submits only a and b;
key c keeps its schema default, keys a and b come from the form, and the
key set is exactly the schema's. -/
theorem saveNodeInterface_complete_witness :
    ((([("a", FieldDef.mk FieldType.text none),
        ("b", FieldDef.mk FieldType.checkbox none),
        ("c", FieldDef.mk FieldType.number (some (JValue.vNum 5)))] :
          List (String × FieldDef)).map Prod.fst).Nodup) ∧
    (saveNodeInterface
      [("a", FieldDef.mk FieldType.text none),
       ("b", FieldDef.mk FieldType.checkbox none),
       ("c", FieldDef.mk FieldType.number (some (JValue.vNum 5)))]
      (fun _ => none) (fun s => s == "a" || s == "b") (fun _ => "va")).lookup "c"
      = some (JValue.vNum 5) := by
  have h := saveNodeInterface_complete
    [("a", FieldDef.mk FieldType.text none),
     ("b", FieldDef.mk FieldType.checkbox none),
     ("c", FieldDef.mk FieldType.number (some (JValue.vNum 5)))]
    (fun _ => none) (fun s => s == "a" || s == "b") (fun _ => "va")
    (by decide) "c" (FieldDef.mk FieldType.number (some (JValue.vNum 5)))
    (by decide)
  exact ⟨by decide, by simpa using h.2⟩

/-- Helper: one create-link click preserves the pending-set invariant (at
most one node pending) and only ever emits requests joining two distinct
nodes. -/
lemma createLinkClick_inv (pending : List Nat) (n : Nat) (w : Option Nat)
    (hlen : pending.length ≤ 1) :
    (createLinkClick pending n w).1.length ≤ 1 ∧
    (∀ r ∈ (createLinkClick pending n w).2.toList, r.source ≠ r.target) := by
  by_cases hmem : n ∈ pending
  · simp [createLinkClick, hmem, hlen]
  · match pending, hlen with
    | [], _ => simp [createLinkClick]
    | [m], _ =>
      have hnm : n ≠ m := by simpa using hmem
      cases w with
      | some wid =>
        have hc : createLinkClick [m] n (some wid) = ([], some ⟨wid, m, n⟩) := by
          simp [createLinkClick, hnm]
        rw [hc]
        refine ⟨by simp, ?_⟩
        intro r hr
        have hre : r = ⟨wid, m, n⟩ := by simpa using hr
        subst hre
        exact fun hmn => hnm hmn.symm
      | none => simp [createLinkClick, hnm]

/-- Helper: the click-sequence invariant carries through `foldl clickStep`. -/
lemma clickFoldAux_inv (clicks : List (Nat × Option Nat))
    (st : List Nat × List LinkCreatePayload)
    (h1 : st.1.length ≤ 1) (h2 : ∀ r ∈ st.2, r.source ≠ r.target) :
    (clicks.foldl clickStep st).1.length ≤ 1 ∧
    (∀ r ∈ (clicks.foldl clickStep st).2, r.source ≠ r.target) := by
  induction clicks generalizing st with
  | nil => exact ⟨h1, h2⟩
  | cons c cs ih =>
    have hstep := createLinkClick_inv st.1 c.1 c.2 h1
    refine ih (clickStep st c) hstep.1 ?_
    intro r hr
    rcases List.mem_append.mp hr with hr | hr
    · exact h2 r hr
    · exact hstep.2 r hr

/-- C10: starting from an empty pending set, the two-click create-link
action keeps at most one node pending, every emitted `LINK_CREATE_REQUEST`
joins two distinct nodes (so it can never request a self-link); clicking a
node already pending changes nothing and emits nothing; the second distinct
click emits (when a workflow is selected) and clears the pending set in the
same step, before any response can arrive — and clears it even when no
workflow is selected; a first click never emits. -/
theorem createLink_two_click (clicks : List (Nat × Option Nat)) :
    (clickFold clicks).1.length ≤ 1 ∧
    (∀ r ∈ (clickFold clicks).2, r.source ≠ r.target) ∧
    (∀ (pending : List Nat) (n : Nat) (w : Option Nat),
      n ∈ pending → createLinkClick pending n w = (pending, none)) ∧
    (∀ m n wid : Nat, n ≠ m →
      createLinkClick [m] n (some wid) = ([], some ⟨wid, m, n⟩)) ∧
    (∀ m n : Nat, n ≠ m → createLinkClick [m] n none = ([], none)) ∧
    (∀ (n : Nat) (w : Option Nat), createLinkClick [] n w = ([n], none)) := by
  have hinv := clickFoldAux_inv clicks ([], []) (by simp) (by simp)
  refine ⟨hinv.1, hinv.2, ?_, ?_, ?_, ?_⟩
  · intro pending n w hmem
    simp [createLinkClick, hmem]
  · intro m n wid hnm
    simp [createLinkClick, hnm]
  · intro m n hnm
    simp [createLinkClick, hnm]
  · intro n w
    simp [createLinkClick]

/-- Witness for C10: a repeated click on node 5 is a no-op, then clicking
node 6 emits the request for the distinct pair (5,6) and clears the
pending set. -/
theorem createLink_two_click_witness :
    createLinkClick [5] 6 (some 9) = ([], some ⟨9, 5, 6⟩) :=
  (createLink_two_click []).2.2.2.1 5 6 9 (by decide)

/-- Helper: repositioning during a window move never changes an element's
identity. -/
lemma applyWindowMove_id (ds : WindowDragState) (x y : ℚ) (e : BoardElem) :
    (applyWindowMove ds x y e).id = e.id := by
  unfold applyWindowMove
  split
  · rfl
  · split <;> rfl

/-- Helper: positions written by a pointer-move are absolute, so a later
move overwrites an earlier one. -/
lemma applyWindowMove_collapse (ds : WindowDragState) (x y x' y' : ℚ) (e : BoardElem) :
    applyWindowMove ds x' y' (applyWindowMove ds x y e) = applyWindowMove ds x' y' e := by
  by_cases h : e.id = ds.windowId
  · simp [applyWindowMove, h]
  · have hb : (e.id == ds.windowId) = false := by simpa using h
    cases hl : ds.captured.lookup e.id with
    | none => simp [applyWindowMove, hb, hl]
    | some off => simp [applyWindowMove, hb, hl]

/-- Helper: two successive pointer-moves with the same drag state are the
same as the second alone. -/
lemma moveWindowDrag_collapse (ds : WindowDragState) (es : List BoardElem)
    (x y x' y' : ℚ) :
    moveWindowDrag ds (moveWindowDrag ds es x y) x' y' = moveWindowDrag ds es x' y' := by
  unfold moveWindowDrag
  rw [List.map_map]
  congr 1
  funext e
  exact applyWindowMove_collapse ds (x - ds.dragStart.1) (y - ds.dragStart.2) _ _ e

/-- Helper: folding a nonempty move sequence is the same as applying the
last move alone. -/
lemma foldl_moveWindowDrag_last (ds : WindowDragState) (ms : List (ℚ × ℚ))
    (m : ℚ × ℚ) (es : List BoardElem) :
    (m :: ms).foldl (fun acc mv => moveWindowDrag ds acc mv.1 mv.2) es
      = moveWindowDrag ds es (ms.getLastD m).1 (ms.getLastD m).2 := by
  induction ms generalizing m es with
  | nil => rfl
  | cons m' ms ih =>
    show (m' :: ms).foldl _ (moveWindowDrag ds es m.1 m.2) = _
    rw [ih m' (moveWindowDrag ds es m.1 m.2), moveWindowDrag_collapse,
      List.getLastD_cons]

/-- Helper: position lookup after one pointer-move. -/
lemma posOf_moveWindowDrag (ds : WindowDragState) (es : List BoardElem)
    (x y : ℚ) (i : Nat) :
    posOf (moveWindowDrag ds es x y) i
      = (es.find? (fun e => e.id == i)).map
          (fun e => (applyWindowMove ds (x - ds.dragStart.1) (y - ds.dragStart.2) e).pos) := by
  unfold posOf moveWindowDrag
  have hpf : (fun e : BoardElem => e.id == i)
        ∘ applyWindowMove ds (x - ds.dragStart.1) (y - ds.dragStart.2)
      = fun e : BoardElem => e.id == i := by
    funext e
    simp [Function.comp, applyWindowMove_id]
  rw [List.find?_map, hpf, Option.map_map]
  rfl

/-- Helper: in a list of elements with distinct ids, `find?` by the id of a
member returns that member. -/
lemma find?_id_of_mem (elems : List BoardElem)
    (hnd : (elems.map BoardElem.id).Nodup) (e : BoardElem) (he : e ∈ elems) :
    elems.find? (fun x => x.id == e.id) = some e := by
  induction elems with
  | nil => simp at he
  | cons a tl ih =>
    rw [List.map_cons] at hnd
    obtain ⟨hna, hnd'⟩ := List.nodup_cons.mp hnd
    rcases List.mem_cons.mp he with heq | hetl
    · subst heq
      rw [List.find?_cons_of_pos]
      simp
    · have hane : (a.id == e.id) = false := by
        simp only [beq_eq_false_iff_ne, ne_eq]
        intro h
        exact hna (by rw [h]; exact List.mem_map.mpr ⟨e, hetl, rfl⟩)
      simp only [List.find?, hane]
      exact ih hnd' hetl

/-- Helper: association-list lookup of a member pair, when keys are
distinct. -/
lemma lookup_eq_some_of_mem {α β : Type} [BEq α] [LawfulBEq α]
    (l : List (α × β)) (hnd : (l.map Prod.fst).Nodup) (k : α) (v : β)
    (hkv : (k, v) ∈ l) : l.lookup k = some v := by
  induction l with
  | nil => simp at hkv
  | cons hd tl ih =>
    obtain ⟨k', v'⟩ := hd
    rw [List.map_cons] at hnd
    obtain ⟨hnotin, hnd'⟩ := List.nodup_cons.mp hnd
    rcases List.mem_cons.mp hkv with heq | htl
    · cases heq
      simp [List.lookup]
    · have hne : (k == k') = false := by
        simp only [beq_eq_false_iff_ne, ne_eq]
        intro h
        subst h
        exact hnotin (List.mem_map.mpr ⟨(k, v), htl, rfl⟩)
      simp only [List.lookup, hne]
      exact ih hnd' htl

/-- Helper: association-list lookup of an absent key. -/
lemma lookup_eq_none_of_not_mem_keys {α β : Type} [BEq α] [LawfulBEq α]
    (l : List (α × β)) (k : α) (h : k ∉ l.map Prod.fst) : l.lookup k = none := by
  induction l with
  | nil => rfl
  | cons hd tl ih =>
    obtain ⟨k', v'⟩ := hd
    have h1 : k ≠ k' := by
      intro he
      exact h (by simp [he])
    have h2 : k ∉ tl.map Prod.fst := by
      intro hm
      exact h (by simp [hm])
    have hb : (k == k') = false := by simpa using h1
    simp only [List.lookup, hb]
    exact ih h2

/-- Helper: the captured-member list has distinct keys, inherited from the
board's distinct element ids. -/
lemma beginWindowDrag_keys_nodup (elems : List BoardElem) (w : BoardElem)
    (x y : ℚ) (hnd : (elems.map BoardElem.id).Nodup) :
    ((beginWindowDrag elems w x y).captured.map Prod.fst).Nodup := by
  unfold beginWindowDrag
  simp only [List.map_map]
  have hf : (Prod.fst ∘ fun e : BoardElem =>
      (e.id, e.pos.1 - w.pos.1, e.pos.2 - w.pos.2)) = BoardElem.id := rfl
  rw [hf]
  exact hnd.sublist ((List.filter_sublist elems).map BoardElem.id)

/-- Helper: a pair is captured at drag-start exactly when its element is
distinct from the window, geometrically inside it at that instant, and
carries the offset of the element from the window origin. -/
lemma beginWindowDrag_mem_iff (elems : List BoardElem) (w : BoardElem)
    (x y : ℚ) (hnd : (elems.map BoardElem.id).Nodup) (e : BoardElem)
    (he : e ∈ elems) (off : ℚ × ℚ) :
    ((e.id, off) ∈ (beginWindowDrag elems w x y).captured ↔
      (e.id ≠ w.id ∧ isNodeInsideWindow e w = true ∧
        off = (e.pos.1 - w.pos.1, e.pos.2 - w.pos.2))) := by
  unfold beginWindowDrag
  simp only [List.mem_map, List.mem_filter]
  constructor
  · rintro ⟨e', ⟨he', hp'⟩, heq⟩
    have hid : e'.id = e.id := congrArg Prod.fst heq
    have hee : e' = e := List.inj_on_of_nodup_map hnd he' he hid
    rw [hee] at hp' heq
    have hp2 : e.id ≠ w.id ∧ isNodeInsideWindow e w = true := by simpa using hp'
    exact ⟨hp2.1, hp2.2, (congrArg Prod.snd heq).symm⟩
  · rintro ⟨hne, hin, rfl⟩
    exact ⟨e, ⟨he, by simp [hne, hin]⟩, rfl⟩

/-- C5: for a window drag, membership is computed once at pointer-down —
exactly the elements geometrically contained in the window at that instant,
each cached with its offset from the window origin; after any nonempty
sequence of pointer-moves the window sits at the last sample minus the
initial pointer offset, every captured member sits at the window position
plus its cached offset — i.e. moved by exactly the window's delta — and
every non-captured element keeps its initial position, even if the drag
moved the window over or away from it. -/
theorem windowDrag_membership_fixed (elems : List BoardElem) (w : BoardElem)
    (sx sy : ℚ) (m : ℚ × ℚ) (ms : List (ℚ × ℚ))
    (hnd : (elems.map BoardElem.id).Nodup) (hw : w ∈ elems)
    (hkind : w.kind = CellKind.window) :
    (∀ e ∈ elems, ∀ off : ℚ × ℚ,
      ((e.id, off) ∈ (beginWindowDrag elems w sx sy).captured ↔
        (e.id ≠ w.id ∧ isNodeInsideWindow e w = true ∧
          off = (e.pos.1 - w.pos.1, e.pos.2 - w.pos.2)))) ∧
    posOf (windowDragRun elems w sx sy (m :: ms)) w.id
      = some ((ms.getLastD m).1 - (sx - w.pos.1), (ms.getLastD m).2 - (sy - w.pos.2)) ∧
    (∀ e ∈ elems, ∀ off : ℚ × ℚ,
      (e.id, off) ∈ (beginWindowDrag elems w sx sy).captured →
      posOf (windowDragRun elems w sx sy (m :: ms)) e.id
        = some ((ms.getLastD m).1 - (sx - w.pos.1) + off.1,
            (ms.getLastD m).2 - (sy - w.pos.2) + off.2)) ∧
    (∀ e ∈ elems, ∀ off : ℚ × ℚ,
      (e.id, off) ∈ (beginWindowDrag elems w sx sy).captured →
      posOf (windowDragRun elems w sx sy (m :: ms)) e.id
        = some (e.pos.1 + ((ms.getLastD m).1 - (sx - w.pos.1) - w.pos.1),
            e.pos.2 + ((ms.getLastD m).2 - (sy - w.pos.2) - w.pos.2))) ∧
    (∀ e ∈ elems, e.id ≠ w.id →
      (∀ off : ℚ × ℚ, (e.id, off) ∉ (beginWindowDrag elems w sx sy).captured) →
      posOf (windowDragRun elems w sx sy (m :: ms)) e.id = some e.pos) := by
  have hrun : windowDragRun elems w sx sy (m :: ms)
      = moveWindowDrag (beginWindowDrag elems w sx sy) elems
          (ms.getLastD m).1 (ms.getLastD m).2 := by
    unfold windowDragRun
    exact foldl_moveWindowDrag_last _ ms m elems
  have hwid : (beginWindowDrag elems w sx sy).windowId = w.id := rfl
  have hds1 : (beginWindowDrag elems w sx sy).dragStart
      = (sx - w.pos.1, sy - w.pos.2) := rfl
  have hcap : ∀ e ∈ elems, ∀ off : ℚ × ℚ,
      (e.id, off) ∈ (beginWindowDrag elems w sx sy).captured →
      posOf (windowDragRun elems w sx sy (m :: ms)) e.id
        = some ((ms.getLastD m).1 - (sx - w.pos.1) + off.1,
            (ms.getLastD m).2 - (sy - w.pos.2) + off.2) := by
    intro e he off hoff
    have hne : e.id ≠ w.id :=
      ((beginWindowDrag_mem_iff elems w sx sy hnd e he off).mp hoff).1
    have hbne : (e.id == w.id) = false := by simpa using hne
    have hlk : (beginWindowDrag elems w sx sy).captured.lookup e.id = some off :=
      lookup_eq_some_of_mem _ (beginWindowDrag_keys_nodup elems w sx sy hnd) _ _ hoff
    rw [hrun, posOf_moveWindowDrag, find?_id_of_mem elems hnd e he]
    simp [applyWindowMove, hwid, hds1, hbne, hlk, hne]
  refine ⟨fun e he off => beginWindowDrag_mem_iff elems w sx sy hnd e he off,
    ?_, hcap, ?_, ?_⟩
  · rw [hrun, posOf_moveWindowDrag, find?_id_of_mem elems hnd w hw]
    simp [applyWindowMove, hwid, hds1]
  · intro e he off hoff
    have hoffval :=
      ((beginWindowDrag_mem_iff elems w sx sy hnd e he off).mp hoff).2.2
    rw [hcap e he off hoff, hoffval]
    simp only [Option.some.injEq, Prod.mk.injEq]
    constructor <;> ring
  · intro e he hne hnotin
    have hkeys : e.id ∉ (beginWindowDrag elems w sx sy).captured.map Prod.fst := by
      intro hmem
      obtain ⟨p, hp, hfst⟩ := List.mem_map.mp hmem
      refine hnotin p.2 ?_
      rw [← hfst]
      exact hp
    have hlk : (beginWindowDrag elems w sx sy).captured.lookup e.id = none :=
      lookup_eq_none_of_not_mem_keys _ _ hkeys
    have hbne : (e.id == w.id) = false := by simpa using hne
    rw [hrun, posOf_moveWindowDrag, find?_id_of_mem elems hnd e he]
    simp [applyWindowMove, hwid, hbne, hlk, hne]

/-- Witness for C5: a window at (0,0) of size 100×100 grabbed at (5,5) and
dragged to (50,50) lands at (45,45); the node at (10,5) inside it lands at
(55,50), preserving its (10,5) offset; the node at (200,0) outside it does
not move. -/
theorem windowDrag_membership_fixed_witness :
    posOf (windowDragRun
        [⟨0, CellKind.window, (0, 0), (100, 100)⟩,
         ⟨1, CellKind.node, (10, 5), (10, 10)⟩,
         ⟨2, CellKind.node, (200, 0), (10, 10)⟩]
        ⟨0, CellKind.window, (0, 0), (100, 100)⟩ 5 5 [(50, 50)])
      (BoardElem.mk 0 CellKind.window (0, 0) (100, 100)).id
      = some (45, 45) := by
  have h := (windowDrag_membership_fixed
    [⟨0, CellKind.window, (0, 0), (100, 100)⟩,
     ⟨1, CellKind.node, (10, 5), (10, 10)⟩,
     ⟨2, CellKind.node, (200, 0), (10, 10)⟩]
    ⟨0, CellKind.window, (0, 0), (100, 100)⟩ 5 5 (50, 50) []
    (by decide) (by decide) rfl).2.1
  norm_num [List.getLastD] at h
  exact h

end WorkshopAI
